import Mathlib

/-!
Shallow embedding of the Monte-Carlo blood-usage simulator
(`src/SimulasiMonteCarlo/app.montecarlo.py`). Python strings are `String`
(manipulated as `List Char`), Python `int` is `ℤ` (draw indices `ℕ`),
Python `float` is modelled exactly as `ℚ`. The Streamlit progress bar and
table rendering are observability only and are dropped; the numeric
content of the rendered band column is kept (`display_bands`).
-/

namespace MonteCarlo

/-- Embedding of Python single-character `str.replace(pat, repl)`
(every pattern used by `clean_interval_string` in the source is one
character, so single-character replacement is the exact semantics). -/
def replaceChar (pat : Char) (repl : List Char) : List Char → List Char
  | [] => []
  | c :: rest => (if c = pat then repl else [c]) ++ replaceChar pat repl rest

/-- Embedding of `clean_interval_string` (app.montecarlo.py lines 30-34):
`str(s).replace('â','-').replace('–','-').replace('—','-').replace(' ','').replace(',','')`,
the five replacements applied left to right. -/
def clean_interval_string (s : String) : String :=
  String.mk (replaceChar ',' []
    (replaceChar ' ' []
      (replaceChar '—' ['-']
        (replaceChar '–' ['-']
          (replaceChar 'â' ['-'] s.data)))))

/-- Embedding of Python `str.split('-')`: the (possibly empty) chunks
between occurrences of `'-'`; the empty string yields one empty chunk. -/
def splitDash : List Char → List (List Char)
  | [] => [[]]
  | c :: rest =>
    if c = '-' then [] :: splitDash rest
    else
      match splitDash rest with
      | part :: parts => (c :: part) :: parts
      | [] => [[c]]

/-- Strip leading and trailing whitespace, as Python `int(str)` does
before parsing its argument. -/
def stripWs (s : List Char) : List Char :=
  ((s.dropWhile Char.isWhitespace).reverse.dropWhile Char.isWhitespace).reverse

/-- Digit run of a Python integer literal after the first digit: digits
with single underscores allowed between digits. -/
def pyDigitsAux (acc : ℕ) : List Char → Option ℕ
  | [] => some acc
  | '_' :: c :: rest =>
    if c.isDigit then pyDigitsAux (10 * acc + (c.toNat - 48)) rest else none
  | ['_'] => none
  | c :: rest =>
    if c.isDigit then pyDigitsAux (10 * acc + (c.toNat - 48)) rest else none

/-- Nonempty digit run of a Python integer literal (first char must be a
digit; underscores only between digits). -/
def pyDigits : List Char → Option ℕ
  | [] => none
  | c :: rest => if c.isDigit then pyDigitsAux (c.toNat - 48) rest else none

/-- Embedding of Python `int(str)`: strip whitespace, optional sign,
digits (underscores allowed between digits); `none` models `ValueError`. -/
def pyInt (s : List Char) : Option ℤ :=
  match stripWs s with
  | [] => none
  | c :: rest =>
    if c = '-' then (pyDigits rest).map (fun n => -(n : ℤ))
    else if c = '+' then (pyDigits rest).map (fun n => (n : ℤ))
    else (pyDigits (c :: rest)).map (fun n => (n : ℤ))

/-- Embedding of `parse_interval` (lines 36-45): split on `'-'`, convert
both parts with `int`; any `ValueError` (wrong chunk count or a
non-numeric chunk) yields `(None, None)`, modelled as `none`. -/
def parse_interval (s : String) : Option (ℤ × ℤ) :=
  match splitDash s.data with
  | [x, y] =>
    match pyInt x, pyInt y with
    | some a, some b => some (a, b)
    | _, _ => none
  | _ => none

/-- Embedding of Python `round` (banker's rounding, round half to even),
applied to the exact rational modelling the float. The fractional part
`q - ⌊q⌋` is compared with `1/2` through the integer
`t = 2*(q.num - ⌊q⌋*q.den)`, since `q - ⌊q⌋ < 1/2 ↔ t < q.den` (the
rational comparison itself does not reduce in the kernel);
`pyRound_eq` below restates the definition with rational arithmetic. -/
def pyRound (q : ℚ) : ℤ :=
  let f := ⌊q⌋
  let t := 2 * (q.num - f * q.den)
  if t < (q.den : ℤ) then f
  else if (q.den : ℤ) < t then f + 1
  else if f % 2 = 0 then f else f + 1

/-- Embedding of `math.ceil((a + b) / 2)` on exact arithmetic, in the
integer form `(a + b + 1) div 2` (floor division); `ceilHalf_eq` below
proves it equal to the ceiling of the rational `(a + b) / 2`. -/
def ceilHalf (a b : ℤ) : ℤ := (a + b + 1).ediv 2

/-- One row of a distribution table, the columns kept by
`load_distribusi_from_excel` (line 72). -/
structure IntervalRow where
  no : ℤ
  intervalKelas : String
  frekuensi : ℤ
  probabilitas : ℚ
  probKumulatif : ℚ
  probKumulatif100 : ℚ
  deriving DecidableEq, Inhabited

/-- Midpoint of a row's interval after cleaning and parsing, 0 when the
interval fails to parse (the shared body of lines 118-120 and 171-176). -/
def midpoint_or_zero (row : IntervalRow) : ℤ :=
  match parse_interval (clean_interval_string row.intervalKelas) with
  | some (a, b) => ceilHalf a b
  | none => 0

/-- Loop of `get_simulation_value` (lines 167-178), with the running
`lower_bound` explicit: walk the rows, each row's upper bound is
`int(round(row['Prob Kumulatif * 100']))`; on the first row whose band
contains the draw return the row's midpoint (0 on parse failure); if no
band matches return 0. -/
def getSimAux (lowerBound : ℤ) : List IntervalRow → ℤ → ℤ
  | [], _ => 0
  | row :: rest, randomNumber =>
    if lowerBound ≤ randomNumber ∧ randomNumber ≤ pyRound row.probKumulatif100 then
      midpoint_or_zero row
    else
      getSimAux (pyRound row.probKumulatif100 + 1) rest randomNumber

/-- Embedding of `get_simulation_value` (lines 155-178). -/
def get_simulation_value (df : List IntervalRow) (randomNumber : ℤ) : ℤ :=
  getSimAux 0 df randomNumber

/-- Band walk of `display_distribution_table` (lines 124-129) with the
running `lower_bound` explicit: row i's displayed band is
`(lower_bound, int(round(row['Prob Kumulatif * 100'])))` and the next
lower bound is that upper bound plus one. -/
def bandsAux (lowerBound : ℤ) : List IntervalRow → List (ℤ × ℤ)
  | [] => []
  | row :: rest =>
    (lowerBound, pyRound row.probKumulatif100) ::
      bandsAux (pyRound row.probKumulatif100 + 1) rest

/-- The numeric content of the `Interval Angka Acak` column computed by
`display_distribution_table` (lines 124-129), starting at lower bound 0. -/
def display_bands (df : List IntervalRow) : List (ℤ × ℤ) :=
  bandsAux 0 df

/-- Row-by-row lookup of a draw in a precomputed band list: the sampler
re-expressed against the displayed bands (used to compare the two band
computations). -/
def sample_via_display_bands : List (ℤ × ℤ) → List IntervalRow → ℤ → ℤ
  | _, [], _ => 0
  | [], _ :: _, _ => 0
  | (lb, ub) :: bs, row :: rest, randomNumber =>
    if lb ≤ randomNumber ∧ randomNumber ≤ ub then
      midpoint_or_zero row
    else
      sample_via_display_bands bs rest randomNumber

/-- The `distribusi_dict` argument of `run_monte_carlo_simulation`: a
Python dict from blood-type label to distribution table. -/
def Tables : Type := String → Option (List IntervalRow)

/-- Embedding of `distribusi_dict.get(key, pd.DataFrame())` (lines
204-207): an absent key yields the empty table. -/
def dictGetD (d : Tables) (key : String) : List IntervalRow :=
  (d key).getD []

/-- One row of the simulation result table, the record appended at lines
217-232. -/
structure SimRecord where
  periode : ℤ
  angkaAcakA : ℕ
  angkaAcakB : ℕ
  angkaAcakAB : ℕ
  angkaAcakO : ℕ
  simA : ℤ
  simB : ℤ
  simAB : ℤ
  simO : ℤ
  totalSimulasi : ℤ
  pmkA : ℚ
  pmkB : ℚ
  pmkAB : ℚ
  pmkO : ℚ
  deriving DecidableEq, Inhabited

/-- Body of one iteration of the simulation loop (lines 198-232): the
randomness source is a stream `rng` of draws indexed by how many draws
have been consumed so far (`k`); the four `random.randint(0, 99)` calls
take draws `k, k+1, k+2, k+3`; `i` is the 0-based loop index. Percent
shares divide only when `total_sim` is truthy, i.e. nonzero. -/
def mkRecord (d : Tables) (rng : ℕ → ℕ) (k : ℕ) (i : ℕ) : SimRecord :=
  let aAcak := rng k
  let bAcak := rng (k + 1)
  let abAcak := rng (k + 2)
  let oAcak := rng (k + 3)
  let simA := get_simulation_value (dictGetD d "A") (aAcak : ℤ)
  let simB := get_simulation_value (dictGetD d "B") (bAcak : ℤ)
  let simAB := get_simulation_value (dictGetD d "AB") (abAcak : ℤ)
  let simO := get_simulation_value (dictGetD d "O") (oAcak : ℤ)
  let totalSim := simA + simB + simAB + simO
  let pa : ℚ := if totalSim ≠ 0 then (simA : ℚ) / (totalSim : ℚ) * 100 else 0
  let pb : ℚ := if totalSim ≠ 0 then (simB : ℚ) / (totalSim : ℚ) * 100 else 0
  let pab : ℚ := if totalSim ≠ 0 then (simAB : ℚ) / (totalSim : ℚ) * 100 else 0
  let po : ℚ := if totalSim ≠ 0 then (simO : ℚ) / (totalSim : ℚ) * 100 else 0
  { periode := (i : ℤ) + 1
    angkaAcakA := aAcak, angkaAcakB := bAcak
    angkaAcakAB := abAcak, angkaAcakO := oAcak
    simA := simA, simB := simB, simAB := simAB, simO := simO
    totalSimulasi := totalSim
    pmkA := pa, pmkB := pb, pmkAB := pab, pmkO := po }

/-- The mutable state of `run_monte_carlo_simulation`: the tables dict,
the `simulation_results` accumulator list, and the count of random draws
consumed so far (progress-bar updates have no functional effect and are
dropped). -/
structure SimState where
  tables : Tables
  results : List SimRecord
  rngIdx : ℕ

/-- One pass of the loop body at 0-based index `i`: appends the period's
record and advances the randomness stream by the four draws consumed. -/
def runBody (rng : ℕ → ℕ) (i : ℕ) (st : SimState) : SimState :=
  { st with
    results := st.results ++ [mkRecord st.tables rng st.rngIdx i]
    rngIdx := st.rngIdx + 4 }

/-- The `for i in range(num_simulations)` loop (lines 198-234): `m`
iterations remain and `i` is the current 0-based index. -/
def runStateLoop (rng : ℕ → ℕ) : ℕ → ℕ → SimState → SimState
  | 0, _, st => st
  | m + 1, i, st => runStateLoop rng m (i + 1) (runBody rng i st)

/-- Embedding of `run_monte_carlo_simulation` (lines 180-237) as a state
transformer: starts from an empty `simulation_results` list and runs the
loop; `range` of a non-positive count is empty, so `n.toNat` iterations
run. -/
def run_monte_carlo_simulation_state (d : Tables) (n : ℤ) (rng : ℕ → ℕ)
    (k : ℕ) : SimState :=
  runStateLoop rng n.toNat 0 ⟨d, [], k⟩

/-- The value returned by `run_monte_carlo_simulation`: the result
records, paired with the index tracking how many draws were consumed. -/
def run_monte_carlo_simulation (d : Tables) (n : ℤ) (rng : ℕ → ℕ)
    (k : ℕ) : List SimRecord × ℕ :=
  ((run_monte_carlo_simulation_state d n rng k).results,
   (run_monte_carlo_simulation_state d n rng k).rngIdx)

/-- Error taxonomy of the period-count validation. -/
inductive SimError where
  | invalidPeriodCount
  deriving DecidableEq

/-- Embedding of the `__main__` run path (lines 495-511): the parsed
period count is rejected with the `InvalidPeriodCount` error message when
`num_simulations_input <= 0`, before `run_monte_carlo_simulation` is
invoked; otherwise the engine runs. The second component is the index
into the randomness stream after the call. -/
def run_simulation_checked (d : Tables) (n : ℤ) (rng : ℕ → ℕ) (k : ℕ) :
    Except SimError (List SimRecord) × ℕ :=
  if n ≤ 0 then
    (Except.error SimError.invalidPeriodCount, k)
  else
    (Except.ok (run_monte_carlo_simulation d n rng k).1,
     (run_monte_carlo_simulation d n rng k).2)

/-- Model of pandas `Series.idxmax` on the list of values of a series
with the default 0-based range index: the position of the first
occurrence of the maximum (0 for an empty series, unused). -/
def idxmax : List ℤ → ℕ
  | [] => 0
  | v :: rest =>
    match rest with
    | [] => 0
    | _ :: _ =>
      let r := idxmax rest
      if rest.getD r 0 ≤ v then 0 else r + 1

/-- Model of pandas `Series.idxmin`: the position of the first
occurrence of the minimum. -/
def idxmin : List ℤ → ℕ
  | [] => 0
  | v :: rest =>
    match rest with
    | [] => 0
    | _ :: _ =>
      let r := idxmin rest
      if v ≤ rest.getD r 0 then 0 else r + 1

/-- Embedding of the extremal-period identification in
`perform_summary_analysis` (lines 255-257): behind the `if not
sim_df.empty` guard, the rows at `idxmax` and `idxmin` of the
`Total Simulasi` column. -/
def perform_summary_analysis_extremes (res : List SimRecord) :
    Option (SimRecord × SimRecord) :=
  match res with
  | [] => none
  | _ :: _ =>
    some (res.getD (idxmax (res.map SimRecord.totalSimulasi)) default,
          res.getD (idxmin (res.map SimRecord.totalSimulasi)) default)

/-! Sanity lemmas tying the integer encodings above to the rational
formulations of the source operations. -/

/-- `ceilHalf` computes the ceiling of the exact average. -/
lemma ceilHalf_eq (a b : ℤ) : ceilHalf a b = ⌈((a + b : ℤ) : ℚ) / 2⌉ := by
  have hdm := Int.ediv_add_emod (a + b + 1) 2
  have h0 : 0 ≤ (a + b + 1).emod 2 := Int.emod_nonneg _ (by norm_num)
  have h2 : (a + b + 1).emod 2 < 2 := Int.emod_lt_of_pos _ (by norm_num)
  have c1 : (2 : ℚ) * (((a + b + 1).ediv 2 : ℤ) : ℚ) +
      (((a + b + 1).emod 2 : ℤ) : ℚ) = (a : ℚ) + b + 1 := by
    exact_mod_cast hdm
  have c2 : (0 : ℚ) ≤ (((a + b + 1).emod 2 : ℤ) : ℚ) := by exact_mod_cast h0
  have c3 : (((a + b + 1).emod 2 : ℤ) : ℚ) ≤ 1 := by
    have : (a + b + 1).emod 2 ≤ 1 := by omega
    exact_mod_cast this
  simp only [ceilHalf]
  rw [eq_comm, Int.ceil_eq_iff]
  constructor
  · push_cast
    linarith
  · push_cast
    linarith

/-- `pyRound` is round-half-to-even of the rational. -/
lemma pyRound_eq (q : ℚ) : pyRound q =
    if q - ⌊q⌋ < 1 / 2 then ⌊q⌋
    else if 1 / 2 < q - ⌊q⌋ then ⌊q⌋ + 1
    else if ⌊q⌋ % 2 = 0 then ⌊q⌋ else ⌊q⌋ + 1 := by
  have hd : (0 : ℚ) < (q.den : ℚ) := by exact_mod_cast q.pos
  have hnum : (q.num : ℚ) = q * (q.den : ℚ) :=
    (div_eq_iff (ne_of_gt hd)).mp (Rat.num_div_den q)
  have hcast : ((2 * (q.num - ⌊q⌋ * q.den) : ℤ) : ℚ) =
      2 * (q.den : ℚ) * (q - ⌊q⌋) := by
    push_cast
    rw [hnum]
    ring
  have hhalf : (((q.den : ℤ)) : ℚ) = 2 * (q.den : ℚ) * (1 / 2) := by
    push_cast
    ring
  have hkey : ∀ x : ℚ,
      2 * (q.den : ℚ) * x < 2 * (q.den : ℚ) * (1 / 2) ↔ x < 1 / 2 :=
    fun x => mul_lt_mul_left (by linarith)
  have h1 : (2 * (q.num - ⌊q⌋ * q.den) < (q.den : ℤ)) ↔ q - ⌊q⌋ < 1 / 2 := by
    constructor
    · intro h
      have hq : ((2 * (q.num - ⌊q⌋ * q.den) : ℤ) : ℚ) < (((q.den : ℤ)) : ℚ) :=
        Int.cast_lt.mpr h
      rw [hcast, hhalf] at hq
      exact (hkey _).mp hq
    · intro h
      have hq : 2 * (q.den : ℚ) * (q - ⌊q⌋) < 2 * (q.den : ℚ) * (1 / 2) :=
        (hkey _).mpr h
      rw [← hhalf, ← hcast] at hq
      exact Int.cast_lt.mp hq
  have hkey2 : ∀ x : ℚ,
      2 * (q.den : ℚ) * (1 / 2) < 2 * (q.den : ℚ) * x ↔ 1 / 2 < x :=
    fun x => mul_lt_mul_left (by linarith)
  have h2 : ((q.den : ℤ) < 2 * (q.num - ⌊q⌋ * q.den)) ↔ 1 / 2 < q - ⌊q⌋ := by
    constructor
    · intro h
      have hq : (((q.den : ℤ)) : ℚ) < ((2 * (q.num - ⌊q⌋ * q.den) : ℤ) : ℚ) :=
        Int.cast_lt.mpr h
      rw [hcast, hhalf] at hq
      exact (hkey2 _).mp hq
    · intro h
      have hq : 2 * (q.den : ℚ) * (1 / 2) < 2 * (q.den : ℚ) * (q - ⌊q⌋) :=
        (hkey2 _).mpr h
      rw [← hhalf, ← hcast] at hq
      exact Int.cast_lt.mp hq
  simp only [pyRound]
  rw [if_congr h1 rfl (if_congr h2 rfl rfl)]

/-! Structural lemmas about the band walk and the sampler. -/

lemma bandsAux_length (df : List IntervalRow) : ∀ lb : ℤ,
    (bandsAux lb df).length = df.length := by
  induction df with
  | nil => intro lb; rfl
  | cons row rest ih => intro lb; simp [bandsAux, ih]

lemma bandsAux_getD_snd (df : List IntervalRow) : ∀ (lb : ℤ) (i : ℕ),
    i < df.length →
    ((bandsAux lb df).getD i (0, 0)).2 =
      pyRound ((df.getD i default).probKumulatif100) := by
  induction df with
  | nil => intro lb i h; exact absurd h (Nat.not_lt_zero i)
  | cons row rest ih =>
    intro lb i h
    cases i with
    | zero => simp [bandsAux]
    | succ j =>
      have hj : j < rest.length := Nat.succ_lt_succ_iff.mp h
      simp only [bandsAux, List.getD_cons_succ]
      exact ih _ j hj

lemma bandsAux_getD_fst (df : List IntervalRow) (lb : ℤ) (h : df ≠ []) :
    ((bandsAux lb df).getD 0 (0, 0)).1 = lb := by
  cases df with
  | nil => exact absurd rfl h
  | cons row rest => simp [bandsAux]

lemma bandsAux_chain (df : List IntervalRow) : ∀ (lb : ℤ) (i : ℕ),
    i + 1 < df.length →
    ((bandsAux lb df).getD (i + 1) (0, 0)).1 =
      ((bandsAux lb df).getD i (0, 0)).2 + 1 := by
  induction df with
  | nil => intro lb i h; exact absurd h (Nat.not_lt_zero _)
  | cons row rest ih =>
    intro lb i h
    cases i with
    | zero =>
      have hne : rest ≠ [] := by
        cases rest with
        | nil => simp at h
        | cons a t => exact List.cons_ne_nil a t
      simp only [bandsAux, List.getD_cons_succ, List.getD_cons_zero]
      exact bandsAux_getD_fst rest _ hne
    | succ j =>
      have hj : j + 1 < rest.length := Nat.succ_lt_succ_iff.mp h
      simp only [bandsAux, List.getD_cons_succ]
      exact ih _ j hj

/-- The sampler's walk consults exactly the bands that
`display_distribution_table` computes, row by row. -/
lemma getSimAux_eq_sample (df : List IntervalRow) : ∀ (lb rn : ℤ),
    getSimAux lb df rn = sample_via_display_bands (bandsAux lb df) df rn := by
  induction df with
  | nil => intro lb rn; rfl
  | cons row rest ih =>
    intro lb rn
    simp only [getSimAux, bandsAux, sample_via_display_bands]
    by_cases h : lb ≤ rn ∧ rn ≤ pyRound row.probKumulatif100
    · simp [h]
    · simp [h, ih]

lemma getD_map {α β : Type} (f : α → β) (l : List α) (d : α) : ∀ j : ℕ,
    (l.map f).getD j (f d) = f (l.getD j d) := by
  induction l with
  | nil => intro j; cases j <;> rfl
  | cons a l ih =>
    intro j
    cases j with
    | zero => rfl
    | succ j => simp only [List.map_cons, List.getD_cons_succ]; exact ih j

/-! The simulation loop in closed form. -/

lemma runStateLoop_eq (rng : ℕ → ℕ) (m : ℕ) : ∀ (i : ℕ) (st : SimState),
    runStateLoop rng m i st =
      ⟨st.tables,
       st.results ++ (List.range m).map
         (fun j => mkRecord st.tables rng (st.rngIdx + 4 * j) (i + j)),
       st.rngIdx + 4 * m⟩ := by
  induction m with
  | zero =>
    intro i st
    cases st
    simp [runStateLoop]
  | succ m ih =>
    intro i st
    cases st with
    | mk tb res k =>
      have hstep : runStateLoop rng (m + 1) i ⟨tb, res, k⟩ =
          runStateLoop rng m (i + 1) (runBody rng i ⟨tb, res, k⟩) := rfl
      have hfun : (fun j => mkRecord tb rng (k + 4 + 4 * j) (i + 1 + j)) =
          ((fun j => mkRecord tb rng (k + 4 * j) (i + j)) ∘ Nat.succ) := by
        funext j
        simp only [Function.comp_apply, Nat.succ_eq_add_one]
        rw [show k + 4 + 4 * j = k + 4 * (j + 1) by ring,
          show i + 1 + j = i + (j + 1) by ring]
      have hres : (res ++ [mkRecord tb rng k i]) ++
          (List.range m).map (fun j => mkRecord tb rng (k + 4 + 4 * j) (i + 1 + j)) =
          res ++ (List.range (m + 1)).map (fun j => mkRecord tb rng (k + 4 * j) (i + j)) := by
        rw [List.range_succ_eq_map, List.map_cons, List.append_assoc,
          List.singleton_append, hfun, ← List.map_map]
        simp
      rw [hstep, ih]
      simp only [runBody]
      rw [hres, show k + 4 + 4 * m = k + 4 * (m + 1) by ring]

lemma run_eq (d : Tables) (n : ℤ) (rng : ℕ → ℕ) (k : ℕ) :
    run_monte_carlo_simulation d n rng k =
      ((List.range n.toNat).map (fun j => mkRecord d rng (k + 4 * j) j),
       k + 4 * n.toNat) := by
  simp [run_monte_carlo_simulation, run_monte_carlo_simulation_state,
    runStateLoop_eq]

/-! Properties of the pandas `idxmax` / `idxmin` models: the returned
position is in range, carries an extremal value, and is the first
position carrying that value. -/

lemma idxmax_cons_cons (v w : ℤ) (rest2 : List ℤ) :
    idxmax (v :: w :: rest2) =
      if (w :: rest2).getD (idxmax (w :: rest2)) 0 ≤ v then 0
      else idxmax (w :: rest2) + 1 := rfl

lemma idxmin_cons_cons (v w : ℤ) (rest2 : List ℤ) :
    idxmin (v :: w :: rest2) =
      if v ≤ (w :: rest2).getD (idxmin (w :: rest2)) 0 then 0
      else idxmin (w :: rest2) + 1 := rfl

lemma idxmax_spec (l : List ℤ) (h : l ≠ []) :
    idxmax l < l.length ∧
    (∀ j, j < l.length → l.getD j 0 ≤ l.getD (idxmax l) 0) ∧
    (∀ j, j < idxmax l → l.getD j 0 < l.getD (idxmax l) 0) := by
  induction l with
  | nil => exact absurd rfl h
  | cons v rest ih =>
    cases rest with
    | nil =>
      refine ⟨by simp [idxmax], ?_, ?_⟩
      · intro j hj
        have hj0 : j = 0 := by simpa using hj
        subst hj0
        simp [idxmax]
      · intro j hj
        simp [idxmax] at hj
    | cons w rest2 =>
      obtain ⟨ihlt, ihmax, ihfirst⟩ := ih (List.cons_ne_nil w rest2)
      set r := idxmax (w :: rest2) with hr
      by_cases hc : (w :: rest2).getD r 0 ≤ v
      · have hidx : idxmax (v :: w :: rest2) = 0 := by
          rw [idxmax_cons_cons, ← hr, if_pos hc]
        refine ⟨by simp [hidx], ?_, ?_⟩
        · intro j hj
          cases j with
          | zero => simp [hidx]
          | succ j =>
            have hj2 : j < (w :: rest2).length := by simpa using hj
            have hstep := ihmax j hj2
            simp only [hidx, List.getD_cons_zero, List.getD_cons_succ]
            exact le_trans hstep hc
        · intro j hj
          rw [hidx] at hj
          exact absurd hj (Nat.not_lt_zero j)
      · have hlt : v < (w :: rest2).getD r 0 := lt_of_not_ge hc
        have hidx : idxmax (v :: w :: rest2) = r + 1 := by
          rw [idxmax_cons_cons, ← hr, if_neg hc]
        refine ⟨by simpa [hidx] using Nat.succ_lt_succ ihlt, ?_, ?_⟩
        · intro j hj
          cases j with
          | zero =>
            simp only [hidx, List.getD_cons_zero, List.getD_cons_succ]
            exact le_of_lt hlt
          | succ j =>
            have hj2 : j < (w :: rest2).length := by simpa using hj
            simp only [hidx, List.getD_cons_succ]
            exact ihmax j hj2
        · intro j hj
          cases j with
          | zero =>
            simp only [hidx, List.getD_cons_zero, List.getD_cons_succ]
            exact hlt
          | succ j =>
            have hj2 : j < r := by simpa [hidx] using hj
            simp only [hidx, List.getD_cons_succ]
            exact ihfirst j hj2

lemma idxmin_spec (l : List ℤ) (h : l ≠ []) :
    idxmin l < l.length ∧
    (∀ j, j < l.length → l.getD (idxmin l) 0 ≤ l.getD j 0) ∧
    (∀ j, j < idxmin l → l.getD (idxmin l) 0 < l.getD j 0) := by
  induction l with
  | nil => exact absurd rfl h
  | cons v rest ih =>
    cases rest with
    | nil =>
      refine ⟨by simp [idxmin], ?_, ?_⟩
      · intro j hj
        have hj0 : j = 0 := by simpa using hj
        subst hj0
        simp [idxmin]
      · intro j hj
        simp [idxmin] at hj
    | cons w rest2 =>
      obtain ⟨ihlt, ihmin, ihfirst⟩ := ih (List.cons_ne_nil w rest2)
      set r := idxmin (w :: rest2) with hr
      by_cases hc : v ≤ (w :: rest2).getD r 0
      · have hidx : idxmin (v :: w :: rest2) = 0 := by
          rw [idxmin_cons_cons, ← hr, if_pos hc]
        refine ⟨by simp [hidx], ?_, ?_⟩
        · intro j hj
          cases j with
          | zero => simp [hidx]
          | succ j =>
            have hj2 : j < (w :: rest2).length := by simpa using hj
            have hstep := ihmin j hj2
            simp only [hidx, List.getD_cons_zero, List.getD_cons_succ]
            exact le_trans hc hstep
        · intro j hj
          rw [hidx] at hj
          exact absurd hj (Nat.not_lt_zero j)
      · have hlt : (w :: rest2).getD r 0 < v := lt_of_not_ge hc
        have hidx : idxmin (v :: w :: rest2) = r + 1 := by
          rw [idxmin_cons_cons, ← hr, if_neg hc]
        refine ⟨by simpa [hidx] using Nat.succ_lt_succ ihlt, ?_, ?_⟩
        · intro j hj
          cases j with
          | zero =>
            simp only [hidx, List.getD_cons_zero, List.getD_cons_succ]
            exact le_of_lt hlt
          | succ j =>
            have hj2 : j < (w :: rest2).length := by simpa using hj
            simp only [hidx, List.getD_cons_succ]
            exact ihmin j hj2
        · intro j hj
          cases j with
          | zero =>
            simp only [hidx, List.getD_cons_zero, List.getD_cons_succ]
            exact hlt
          | succ j =>
            have hj2 : j < r := by simpa [hidx] using hj
            simp only [hidx, List.getD_cons_succ]
            exact ihfirst j hj2

/-! Fallback behaviour of the sampler. -/

lemma getSimAux_zero_of_no_band (df : List IntervalRow) : ∀ (lb rn : ℤ),
    (∀ b ∈ bandsAux lb df, ¬(b.1 ≤ rn ∧ rn ≤ b.2)) →
    getSimAux lb df rn = 0 := by
  induction df with
  | nil => intro lb rn _; rfl
  | cons row rest ih =>
    intro lb rn h
    have h0 := h (lb, pyRound row.probKumulatif100) (by simp [bandsAux])
    simp only [getSimAux]
    rw [if_neg h0]
    exact ih _ rn (fun b hb => h b (by simp [bandsAux, hb]))

lemma getSimAux_zero_of_bad_row (df : List IntervalRow) : ∀ (lb rn : ℤ) (i : ℕ),
    i < df.length →
    ((bandsAux lb df).getD i (0, 0)).1 ≤ rn →
    rn ≤ ((bandsAux lb df).getD i (0, 0)).2 →
    (∀ j, j < i → ¬(((bandsAux lb df).getD j (0, 0)).1 ≤ rn ∧
      rn ≤ ((bandsAux lb df).getD j (0, 0)).2)) →
    parse_interval (clean_interval_string
      ((df.getD i default).intervalKelas)) = none →
    getSimAux lb df rn = 0 := by
  induction df with
  | nil => intro lb rn i h; exact absurd h (Nat.not_lt_zero _)
  | cons row rest ih =>
    intro lb rn i hi h1 h2 hear hp
    cases i with
    | zero =>
      simp only [bandsAux, List.getD_cons_zero] at h1 h2 hp
      simp only [getSimAux]
      rw [if_pos ⟨h1, h2⟩]
      simp only [midpoint_or_zero, hp]
    | succ i2 =>
      have h0 := hear 0 (Nat.succ_pos i2)
      simp only [bandsAux, List.getD_cons_zero] at h0
      simp only [bandsAux, List.getD_cons_succ] at h1 h2 hp
      simp only [getSimAux]
      rw [if_neg h0]
      refine ih _ rn i2 (Nat.succ_lt_succ_iff.mp hi) h1 h2 ?_ hp
      intro j hj
      have hj1 := hear (j + 1) (Nat.succ_lt_succ hj)
      simpa [bandsAux] using hj1

/-! Indexing helpers for the result list. -/

lemma getD_map_of_lt {α β : Type} (f : α → β) (l : List α) (dfl : α) (r : β) :
    ∀ j, j < l.length → (l.map f).getD j r = f (l.getD j dfl) := by
  induction l with
  | nil => intro j hj; exact absurd hj (Nat.not_lt_zero _)
  | cons a t ih =>
    intro j hj
    cases j with
    | zero => rfl
    | succ j =>
      simp only [List.map_cons, List.getD_cons_succ]
      exact ih j (Nat.succ_lt_succ_iff.mp hj)

lemma range_getD : ∀ (m j : ℕ), j < m → (List.range m).getD j 0 = j := by
  intro m
  induction m with
  | zero => intro j hj; exact absurd hj (Nat.not_lt_zero _)
  | succ m ih =>
    intro j hj
    rw [List.range_succ_eq_map]
    cases j with
    | zero => rfl
    | succ j =>
      have hj2 : j < m := Nat.succ_lt_succ_iff.mp hj
      have hlen : j < (List.range m).length := by simpa using hj2
      rw [List.getD_cons_succ, getD_map_of_lt Nat.succ (List.range m) 0 0 j hlen,
        ih j hj2]

lemma run_length (d : Tables) (n : ℤ) (rng : ℕ → ℕ) (k : ℕ) :
    (run_monte_carlo_simulation d n rng k).1.length = n.toNat := by
  rw [run_eq]
  simp

lemma run_getD (d : Tables) (n : ℤ) (rng : ℕ → ℕ) (k : ℕ) (j : ℕ)
    (hj : j < n.toNat) :
    (run_monte_carlo_simulation d n rng k).1.getD j default =
      mkRecord d rng (k + 4 * j) j := by
  rw [run_eq]
  have hlen : j < (List.range n.toNat).length := by simpa using hj
  rw [getD_map_of_lt _ _ 0 _ j hlen, range_getD _ j hj]

/-! Field equations of a period record, all definitional. -/

lemma mkRecord_total (d : Tables) (rng : ℕ → ℕ) (k i : ℕ) :
    (mkRecord d rng k i).totalSimulasi =
      (mkRecord d rng k i).simA + (mkRecord d rng k i).simB +
      (mkRecord d rng k i).simAB + (mkRecord d rng k i).simO := rfl

lemma mkRecord_pmkA (d : Tables) (rng : ℕ → ℕ) (k i : ℕ) :
    (mkRecord d rng k i).pmkA =
      if (mkRecord d rng k i).totalSimulasi ≠ 0 then
        ((mkRecord d rng k i).simA : ℚ) /
          ((mkRecord d rng k i).totalSimulasi : ℚ) * 100
      else 0 := rfl

lemma mkRecord_pmkB (d : Tables) (rng : ℕ → ℕ) (k i : ℕ) :
    (mkRecord d rng k i).pmkB =
      if (mkRecord d rng k i).totalSimulasi ≠ 0 then
        ((mkRecord d rng k i).simB : ℚ) /
          ((mkRecord d rng k i).totalSimulasi : ℚ) * 100
      else 0 := rfl

lemma mkRecord_pmkAB (d : Tables) (rng : ℕ → ℕ) (k i : ℕ) :
    (mkRecord d rng k i).pmkAB =
      if (mkRecord d rng k i).totalSimulasi ≠ 0 then
        ((mkRecord d rng k i).simAB : ℚ) /
          ((mkRecord d rng k i).totalSimulasi : ℚ) * 100
      else 0 := rfl

lemma mkRecord_pmkO (d : Tables) (rng : ℕ → ℕ) (k i : ℕ) :
    (mkRecord d rng k i).pmkO =
      if (mkRecord d rng k i).totalSimulasi ≠ 0 then
        ((mkRecord d rng k i).simO : ℚ) /
          ((mkRecord d rng k i).totalSimulasi : ℚ) * 100
      else 0 := rfl

/-! Claim theorems. -/

/-- C1: for every tables map and every non-positive integer period count,
the run entry rejects the request with the `InvalidPeriodCount` condition
before consuming any random draw (the randomness index is returned
unchanged), and the engine loop itself produces no period records. -/
theorem run_rejects_nonpositive_periods (d : Tables) (n : ℤ) (rng : ℕ → ℕ)
    (k : ℕ) (h : n ≤ 0) :
    run_simulation_checked d n rng k =
      (Except.error SimError.invalidPeriodCount, k) ∧
    (run_monte_carlo_simulation d n rng k).1 = [] := by
  constructor
  · simp [run_simulation_checked, h]
  · rw [run_eq]
    simp [Int.toNat_of_nonpos h]

theorem run_rejects_nonpositive_periods_witness :
    (0 : ℤ) ≤ 0 ∧
    (run_simulation_checked (fun _ => none) 0 (fun _ => 0) 7 =
      (Except.error SimError.invalidPeriodCount, 7) ∧
     (run_monte_carlo_simulation (fun _ => none) 0 (fun _ => 0) 7).1 = []) :=
  ⟨le_refl 0,
   run_rejects_nonpositive_periods (fun _ => none) 0 (fun _ => 0) 7 (le_refl 0)⟩

/-- C2: evaluating the cleaning-and-parsing pipeline at the label
`"103â-130"` (the docstring's own example): `clean_interval_string`
replaces the mis-encoded `'â'` by `'-'` but keeps the adjacent original
hyphen, yielding `"103--130"`, which `parse_interval` rejects — not the
documented `"103-130"` parsing to `(103, 130)`. On the expected
normalized form the parse and midpoint do behave as documented. -/
theorem clean_interval_docstring_example :
    clean_interval_string "103â-130" = "103--130" ∧
    parse_interval (clean_interval_string "103â-130") = none ∧
    parse_interval "103-130" = some (103, 130) ∧
    ceilHalf 103 130 = 117 :=
  ⟨by decide, by decide, by decide, by decide⟩

/-- C3: the sampler never fails: it returns 0 on the empty table, returns
0 whenever no displayed band contains the draw, and returns 0 when the
draw lands in the band of a row whose interval label fails to parse. -/
theorem sampler_fallback_zero (df : List IntervalRow) (rn : ℤ) (i : ℕ) :
    get_simulation_value [] rn = 0 ∧
    ((∀ b ∈ display_bands df, ¬(b.1 ≤ rn ∧ rn ≤ b.2)) →
      get_simulation_value df rn = 0) ∧
    (i < df.length →
      ((display_bands df).getD i (0, 0)).1 ≤ rn →
      rn ≤ ((display_bands df).getD i (0, 0)).2 →
      (∀ j, j < i → ¬(((display_bands df).getD j (0, 0)).1 ≤ rn ∧
        rn ≤ ((display_bands df).getD j (0, 0)).2)) →
      parse_interval (clean_interval_string
        ((df.getD i default).intervalKelas)) = none →
      get_simulation_value df rn = 0) := by
  refine ⟨rfl, ?_, ?_⟩
  · intro h
    exact getSimAux_zero_of_no_band df 0 rn h
  · intro hi h1 h2 hear hp
    exact getSimAux_zero_of_bad_row df 0 rn i hi h1 h2 hear hp

theorem sampler_fallback_zero_witness :
    get_simulation_value [] 5 = 0 ∧
    get_simulation_value [⟨1, "1-10", 10, 1, 1, 50⟩] 200 = 0 ∧
    get_simulation_value [⟨1, "bad", 10, 1, 1, 100⟩] 5 = 0 :=
  ⟨(sampler_fallback_zero [] 5 0).1,
   (sampler_fallback_zero [⟨1, "1-10", 10, 1, 1, 50⟩] 200 0).2.1 (by decide),
   (sampler_fallback_zero [⟨1, "bad", 10, 1, 1, 100⟩] 5 0).2.2
     (by decide) (by decide) (by decide) (by decide) (by decide)⟩

/-- C4: for every tables map and every positive integer period count,
the run returns exactly `periods` records, the j-th record's
`periodIndex` is j+1 (so the indices run 1..periods in ascending order),
and every record's total equals the sum of its four per-category sampled
values. -/
theorem run_produces_indexed_records (d : Tables) (n : ℤ) (rng : ℕ → ℕ)
    (k : ℕ) (h : 0 < n) :
    (((run_monte_carlo_simulation d n rng k).1.length : ℤ) = n) ∧
    (∀ j, j < (run_monte_carlo_simulation d n rng k).1.length →
      ((run_monte_carlo_simulation d n rng k).1.getD j default).periode =
        (j : ℤ) + 1) ∧
    (∀ j, j < (run_monte_carlo_simulation d n rng k).1.length →
      ((run_monte_carlo_simulation d n rng k).1.getD j default).totalSimulasi =
        ((run_monte_carlo_simulation d n rng k).1.getD j default).simA +
        ((run_monte_carlo_simulation d n rng k).1.getD j default).simB +
        ((run_monte_carlo_simulation d n rng k).1.getD j default).simAB +
        ((run_monte_carlo_simulation d n rng k).1.getD j default).simO) := by
  have hlen := run_length d n rng k
  refine ⟨?_, ?_, ?_⟩
  · rw [hlen, Int.toNat_of_nonneg h.le]
  · intro j hj
    rw [hlen] at hj
    rw [run_getD d n rng k j hj]
    rfl
  · intro j hj
    rw [hlen] at hj
    rw [run_getD d n rng k j hj]
    rfl

theorem run_produces_indexed_records_witness :
    (0 : ℤ) < 2 ∧
    ((((run_monte_carlo_simulation (fun _ => none) 2 (fun _ => 0) 0).1.length :
        ℤ) = 2) ∧
     (∀ j, j < (run_monte_carlo_simulation (fun _ => none) 2
        (fun _ => 0) 0).1.length →
       ((run_monte_carlo_simulation (fun _ => none) 2
          (fun _ => 0) 0).1.getD j default).periode = (j : ℤ) + 1) ∧
     (∀ j, j < (run_monte_carlo_simulation (fun _ => none) 2
        (fun _ => 0) 0).1.length →
       ((run_monte_carlo_simulation (fun _ => none) 2
          (fun _ => 0) 0).1.getD j default).totalSimulasi =
         ((run_monte_carlo_simulation (fun _ => none) 2
            (fun _ => 0) 0).1.getD j default).simA +
         ((run_monte_carlo_simulation (fun _ => none) 2
            (fun _ => 0) 0).1.getD j default).simB +
         ((run_monte_carlo_simulation (fun _ => none) 2
            (fun _ => 0) 0).1.getD j default).simAB +
         ((run_monte_carlo_simulation (fun _ => none) 2
            (fun _ => 0) 0).1.getD j default).simO)) :=
  ⟨by decide,
   run_produces_indexed_records (fun _ => none) 2 (fun _ => 0) 0 (by decide)⟩

/-- C5: for every non-empty distribution table whose rounded cumulative
percentages are monotonically non-decreasing across rows, the displayed
random-number bands are contiguous and non-overlapping in table order:
there is one band per row, the first row's lower bound is 0, each
subsequent row's lower bound is the previous row's upper bound plus one,
each row's upper bound is the rounded cumulative percent, distinct bands
are disjoint (every earlier band ends strictly below where a later band
starts), and the last band's upper end is the rounded final cumulative
percentage. -/
theorem display_bands_partition (df : List IntervalRow) (hne : df ≠ [])
    (hmono : ∀ j, j < df.length → ∀ i, i ≤ j →
      pyRound ((df.getD i default).probKumulatif100) ≤
        pyRound ((df.getD j default).probKumulatif100)) :
    (display_bands df).length = df.length ∧
    ((display_bands df).getD 0 (0, 0)).1 = 0 ∧
    (∀ i, i < (display_bands df).length - 1 →
      ((display_bands df).getD (i + 1) (0, 0)).1 =
        ((display_bands df).getD i (0, 0)).2 + 1) ∧
    (∀ i, i < df.length →
      ((display_bands df).getD i (0, 0)).2 =
        pyRound ((df.getD i default).probKumulatif100)) ∧
    (∀ j, j < (display_bands df).length → ∀ i, i < j →
      ((display_bands df).getD i (0, 0)).2 <
        ((display_bands df).getD j (0, 0)).1) ∧
    ((display_bands df).getD ((display_bands df).length - 1) (0, 0)).2 =
      pyRound ((df.getD (df.length - 1) default).probKumulatif100) := by
  have hlen : (display_bands df).length = df.length := bandsAux_length df 0
  have hpos : 0 < df.length := List.length_pos.mpr hne
  refine ⟨hlen, bandsAux_getD_fst df 0 hne, ?_, ?_, ?_, ?_⟩
  · intro i hi
    rw [hlen] at hi
    exact bandsAux_chain df 0 i (by omega)
  · intro i hi
    exact bandsAux_getD_snd df 0 i hi
  · intro j hj i hij
    rw [hlen] at hj
    obtain ⟨j2, rfl⟩ : ∃ j2, j = j2 + 1 := ⟨j - 1, by omega⟩
    have hchain := bandsAux_chain df 0 j2 hj
    have hsi := bandsAux_getD_snd df 0 i (by omega)
    have hsj := bandsAux_getD_snd df 0 j2 (by omega)
    have hm := hmono j2 (by omega) i (by omega)
    show ((bandsAux 0 df).getD i (0, 0)).2 <
      ((bandsAux 0 df).getD (j2 + 1) (0, 0)).1
    rw [hchain, hsi, hsj]
    omega
  · rw [hlen]
    exact bandsAux_getD_snd df 0 (df.length - 1) (by omega)

theorem display_bands_partition_witness :
    ([(⟨1, "1-10", 5, 1, 1, 50⟩ : IntervalRow), ⟨2, "11-20", 5, 1, 1, 100⟩] ≠
      ([] : List IntervalRow)) ∧
    ((display_bands [⟨1, "1-10", 5, 1, 1, 50⟩, ⟨2, "11-20", 5, 1, 1, 100⟩]).length = 2 ∧
     ((display_bands [⟨1, "1-10", 5, 1, 1, 50⟩,
        ⟨2, "11-20", 5, 1, 1, 100⟩]).getD 0 (0, 0)).1 = 0 ∧
     (∀ i, i < (display_bands [(⟨1, "1-10", 5, 1, 1, 50⟩ : IntervalRow),
        ⟨2, "11-20", 5, 1, 1, 100⟩]).length - 1 →
       ((display_bands [⟨1, "1-10", 5, 1, 1, 50⟩,
          ⟨2, "11-20", 5, 1, 1, 100⟩]).getD (i + 1) (0, 0)).1 =
         ((display_bands [⟨1, "1-10", 5, 1, 1, 50⟩,
            ⟨2, "11-20", 5, 1, 1, 100⟩]).getD i (0, 0)).2 + 1) ∧
     (∀ i, i < ([(⟨1, "1-10", 5, 1, 1, 50⟩ : IntervalRow),
        ⟨2, "11-20", 5, 1, 1, 100⟩] : List IntervalRow).length →
       ((display_bands [⟨1, "1-10", 5, 1, 1, 50⟩,
          ⟨2, "11-20", 5, 1, 1, 100⟩]).getD i (0, 0)).2 =
         pyRound ((([(⟨1, "1-10", 5, 1, 1, 50⟩ : IntervalRow),
           ⟨2, "11-20", 5, 1, 1, 100⟩] : List IntervalRow).getD i
             default).probKumulatif100)) ∧
     (∀ j, j < (display_bands [(⟨1, "1-10", 5, 1, 1, 50⟩ : IntervalRow),
        ⟨2, "11-20", 5, 1, 1, 100⟩]).length → ∀ i, i < j →
       ((display_bands [⟨1, "1-10", 5, 1, 1, 50⟩,
          ⟨2, "11-20", 5, 1, 1, 100⟩]).getD i (0, 0)).2 <
         ((display_bands [⟨1, "1-10", 5, 1, 1, 50⟩,
            ⟨2, "11-20", 5, 1, 1, 100⟩]).getD j (0, 0)).1) ∧
     ((display_bands [⟨1, "1-10", 5, 1, 1, 50⟩,
        ⟨2, "11-20", 5, 1, 1, 100⟩]).getD
          ((display_bands [(⟨1, "1-10", 5, 1, 1, 50⟩ : IntervalRow),
            ⟨2, "11-20", 5, 1, 1, 100⟩]).length - 1) (0, 0)).2 =
       pyRound ((([(⟨1, "1-10", 5, 1, 1, 50⟩ : IntervalRow),
         ⟨2, "11-20", 5, 1, 1, 100⟩] : List IntervalRow).getD
           (([(⟨1, "1-10", 5, 1, 1, 50⟩ : IntervalRow),
             ⟨2, "11-20", 5, 1, 1, 100⟩] : List IntervalRow).length - 1)
             default).probKumulatif100)) := by
  refine ⟨by decide, ?_⟩
  have h := display_bands_partition
    [⟨1, "1-10", 5, 1, 1, 50⟩, ⟨2, "11-20", 5, 1, 1, 100⟩]
    (by decide) (by decide)
  simpa using h

/-- C6: in every simulation period record produced by the engine, each
category's percent share equals sampledValue/total×100 when the total is
positive and equals 0 when the total is 0; consequently the four shares
sum exactly to 100 when the total is positive and are all 0 when the
total is 0. -/
theorem share_percent_of_total (d : Tables) (n : ℤ) (rng : ℕ → ℕ) (k : ℕ)
    (r : SimRecord) (hr : r ∈ (run_monte_carlo_simulation d n rng k).1) :
    (0 < r.totalSimulasi →
      r.pmkA = (r.simA : ℚ) / (r.totalSimulasi : ℚ) * 100 ∧
      r.pmkB = (r.simB : ℚ) / (r.totalSimulasi : ℚ) * 100 ∧
      r.pmkAB = (r.simAB : ℚ) / (r.totalSimulasi : ℚ) * 100 ∧
      r.pmkO = (r.simO : ℚ) / (r.totalSimulasi : ℚ) * 100 ∧
      r.pmkA + r.pmkB + r.pmkAB + r.pmkO = 100) ∧
    (r.totalSimulasi = 0 →
      r.pmkA = 0 ∧ r.pmkB = 0 ∧ r.pmkAB = 0 ∧ r.pmkO = 0) := by
  rw [run_eq] at hr
  obtain ⟨j, hj, rfl⟩ := List.mem_map.mp hr
  constructor
  · intro hpos
    have hne0 : (mkRecord d rng (k + 4 * j) j).totalSimulasi ≠ 0 :=
      ne_of_gt hpos
    have hq0 : ((mkRecord d rng (k + 4 * j) j).totalSimulasi : ℚ) ≠ 0 :=
      Int.cast_ne_zero.mpr hne0
    refine ⟨by rw [mkRecord_pmkA, if_pos hne0], by rw [mkRecord_pmkB, if_pos hne0],
      by rw [mkRecord_pmkAB, if_pos hne0], by rw [mkRecord_pmkO, if_pos hne0], ?_⟩
    rw [mkRecord_pmkA, mkRecord_pmkB, mkRecord_pmkAB, mkRecord_pmkO,
      if_pos hne0, if_pos hne0, if_pos hne0, if_pos hne0]
    have hsum : ((mkRecord d rng (k + 4 * j) j).totalSimulasi : ℚ) =
        ((mkRecord d rng (k + 4 * j) j).simA : ℚ) +
        ((mkRecord d rng (k + 4 * j) j).simB : ℚ) +
        ((mkRecord d rng (k + 4 * j) j).simAB : ℚ) +
        ((mkRecord d rng (k + 4 * j) j).simO : ℚ) := by
      rw [mkRecord_total]
      push_cast
      ring
    field_simp
    rw [hsum]
    ring
  · intro h0
    rw [mkRecord_pmkA, mkRecord_pmkB, mkRecord_pmkAB, mkRecord_pmkO,
      if_neg (not_not_intro h0), if_neg (not_not_intro h0),
      if_neg (not_not_intro h0), if_neg (not_not_intro h0)]
    exact ⟨rfl, rfl, rfl, rfl⟩

theorem share_percent_of_total_witness :
    (0 < (mkRecord (fun _ => none) (fun _ => 0) 0 0).totalSimulasi →
      (mkRecord (fun _ => none) (fun _ => 0) 0 0).pmkA =
        ((mkRecord (fun _ => none) (fun _ => 0) 0 0).simA : ℚ) /
          ((mkRecord (fun _ => none) (fun _ => 0) 0 0).totalSimulasi : ℚ) * 100 ∧
      (mkRecord (fun _ => none) (fun _ => 0) 0 0).pmkB =
        ((mkRecord (fun _ => none) (fun _ => 0) 0 0).simB : ℚ) /
          ((mkRecord (fun _ => none) (fun _ => 0) 0 0).totalSimulasi : ℚ) * 100 ∧
      (mkRecord (fun _ => none) (fun _ => 0) 0 0).pmkAB =
        ((mkRecord (fun _ => none) (fun _ => 0) 0 0).simAB : ℚ) /
          ((mkRecord (fun _ => none) (fun _ => 0) 0 0).totalSimulasi : ℚ) * 100 ∧
      (mkRecord (fun _ => none) (fun _ => 0) 0 0).pmkO =
        ((mkRecord (fun _ => none) (fun _ => 0) 0 0).simO : ℚ) /
          ((mkRecord (fun _ => none) (fun _ => 0) 0 0).totalSimulasi : ℚ) * 100 ∧
      (mkRecord (fun _ => none) (fun _ => 0) 0 0).pmkA +
        (mkRecord (fun _ => none) (fun _ => 0) 0 0).pmkB +
        (mkRecord (fun _ => none) (fun _ => 0) 0 0).pmkAB +
        (mkRecord (fun _ => none) (fun _ => 0) 0 0).pmkO = 100) ∧
    ((mkRecord (fun _ => none) (fun _ => 0) 0 0).totalSimulasi = 0 →
      (mkRecord (fun _ => none) (fun _ => 0) 0 0).pmkA = 0 ∧
      (mkRecord (fun _ => none) (fun _ => 0) 0 0).pmkB = 0 ∧
      (mkRecord (fun _ => none) (fun _ => 0) 0 0).pmkAB = 0 ∧
      (mkRecord (fun _ => none) (fun _ => 0) 0 0).pmkO = 0) :=
  share_percent_of_total (fun _ => none) 1 (fun _ => 0) 0
    (mkRecord (fun _ => none) (fun _ => 0) 0 0) (by decide)

/-- C7: when only category A's table is non-empty (B, AB and O absent or
empty) and 5 periods are requested, the run yields 5 records in each of
which the sampled values for B, AB and O are 0 and the total equals the
sampled value for A. -/
theorem run_single_category_table (d : Tables) (rng : ℕ → ℕ) (k : ℕ)
    (hA : dictGetD d "A" ≠ []) (hB : dictGetD d "B" = [])
    (hAB : dictGetD d "AB" = []) (hO : dictGetD d "O" = []) :
    (run_monte_carlo_simulation d 5 rng k).1.length = 5 ∧
    ∀ r ∈ (run_monte_carlo_simulation d 5 rng k).1,
      r.simB = 0 ∧ r.simAB = 0 ∧ r.simO = 0 ∧ r.totalSimulasi = r.simA := by
  constructor
  · rw [run_length]
    rfl
  · intro r hr
    rw [run_eq] at hr
    obtain ⟨j, hj, rfl⟩ := List.mem_map.mp hr
    refine ⟨?_, ?_, ?_, ?_⟩
    · show get_simulation_value (dictGetD d "B") _ = 0
      rw [hB]
      rfl
    · show get_simulation_value (dictGetD d "AB") _ = 0
      rw [hAB]
      rfl
    · show get_simulation_value (dictGetD d "O") _ = 0
      rw [hO]
      rfl
    · rw [mkRecord_total]
      show _ + get_simulation_value (dictGetD d "B") _ +
        get_simulation_value (dictGetD d "AB") _ +
        get_simulation_value (dictGetD d "O") _ = _
      rw [hB, hAB, hO]
      show _ + (0 : ℤ) + 0 + 0 = _
      ring

theorem run_single_category_table_witness :
    (dictGetD (fun s => if s = "A" then
        some [⟨1, "1-10", 10, 1, 1, 100⟩] else none) "A" ≠ []) ∧
    ((run_monte_carlo_simulation (fun s => if s = "A" then
        some [⟨1, "1-10", 10, 1, 1, 100⟩] else none) 5
        (fun _ => 0) 0).1.length = 5 ∧
     ∀ r ∈ (run_monte_carlo_simulation (fun s => if s = "A" then
        some [⟨1, "1-10", 10, 1, 1, 100⟩] else none) 5 (fun _ => 0) 0).1,
       r.simB = 0 ∧ r.simAB = 0 ∧ r.simO = 0 ∧ r.totalSimulasi = r.simA) :=
  ⟨by decide,
   run_single_category_table
     (fun s => if s = "A" then some [⟨1, "1-10", 10, 1, 1, 100⟩] else none)
     (fun _ => 0) 0 (by decide) (by decide) (by decide) (by decide)⟩

/-- C8: on a non-empty result table whose j-th record carries period
index j+1, the extremes analysis returns the period with the maximum
total and the period with the minimum total, and when several periods tie
for the maximum (resp. minimum) total, the returned one has the earliest
period index. -/
theorem extremes_earliest_max_min (res : List SimRecord) (hne : res ≠ [])
    (hper : ∀ j, j < res.length →
      (res.getD j default).periode = (j : ℤ) + 1) :
    ∃ M m, perform_summary_analysis_extremes res = some (M, m) ∧
      (∀ j, j < res.length →
        (res.getD j default).totalSimulasi ≤ M.totalSimulasi) ∧
      (∀ j, j < res.length →
        (res.getD j default).totalSimulasi = M.totalSimulasi →
        M.periode ≤ (res.getD j default).periode) ∧
      (∀ j, j < res.length →
        m.totalSimulasi ≤ (res.getD j default).totalSimulasi) ∧
      (∀ j, j < res.length →
        (res.getD j default).totalSimulasi = m.totalSimulasi →
        m.periode ≤ (res.getD j default).periode) := by
  have hext : perform_summary_analysis_extremes res =
      some (res.getD (idxmax (res.map SimRecord.totalSimulasi)) default,
            res.getD (idxmin (res.map SimRecord.totalSimulasi)) default) := by
    cases res with
    | nil => exact absurd rfl hne
    | cons a t => rfl
  have hlne : res.map SimRecord.totalSimulasi ≠ [] := by
    intro hc
    exact hne (List.map_eq_nil_iff.mp hc)
  have hllen : (res.map SimRecord.totalSimulasi).length = res.length :=
    List.length_map res _
  obtain ⟨hmaxlt, hmax, hmaxfirst⟩ :=
    idxmax_spec (res.map SimRecord.totalSimulasi) hlne
  obtain ⟨hminlt, hmin, hminfirst⟩ :=
    idxmin_spec (res.map SimRecord.totalSimulasi) hlne
  have hgetmap : ∀ j, j < res.length →
      (res.map SimRecord.totalSimulasi).getD j 0 =
        (res.getD j default).totalSimulasi := by
    intro j hj
    exact getD_map_of_lt SimRecord.totalSimulasi res default 0 j hj
  refine ⟨_, _, hext, ?_, ?_, ?_, ?_⟩
  · intro j hj
    have h1 := hmax j (by omega)
    rw [hgetmap j hj,
      hgetmap (idxmax (res.map SimRecord.totalSimulasi)) (by omega)] at h1
    exact h1
  · intro j hj heq
    have hle : idxmax (res.map SimRecord.totalSimulasi) ≤ j := by
      by_contra hcon
      push_neg at hcon
      have h2 := hmaxfirst j hcon
      rw [hgetmap j hj,
        hgetmap (idxmax (res.map SimRecord.totalSimulasi)) (by omega)] at h2
      omega
    rw [hper j hj,
      hper (idxmax (res.map SimRecord.totalSimulasi)) (by omega)]
    have h3 := Nat.succ_le_succ hle
    exact_mod_cast h3
  · intro j hj
    have h1 := hmin j (by omega)
    rw [hgetmap j hj,
      hgetmap (idxmin (res.map SimRecord.totalSimulasi)) (by omega)] at h1
    exact h1
  · intro j hj heq
    have hle : idxmin (res.map SimRecord.totalSimulasi) ≤ j := by
      by_contra hcon
      push_neg at hcon
      have h2 := hminfirst j hcon
      rw [hgetmap j hj,
        hgetmap (idxmin (res.map SimRecord.totalSimulasi)) (by omega)] at h2
      omega
    rw [hper j hj,
      hper (idxmin (res.map SimRecord.totalSimulasi)) (by omega)]
    have h3 := Nat.succ_le_succ hle
    exact_mod_cast h3

theorem extremes_earliest_max_min_witness :
    ([(⟨1, 0, 0, 0, 0, 0, 0, 0, 0, 5, 0, 0, 0, 0⟩ : SimRecord),
      ⟨2, 0, 0, 0, 0, 0, 0, 0, 0, 3, 0, 0, 0, 0⟩] ≠ []) ∧
    (∃ M m, perform_summary_analysis_extremes
        [(⟨1, 0, 0, 0, 0, 0, 0, 0, 0, 5, 0, 0, 0, 0⟩ : SimRecord),
         ⟨2, 0, 0, 0, 0, 0, 0, 0, 0, 3, 0, 0, 0, 0⟩] = some (M, m) ∧
      (∀ j, j < ([(⟨1, 0, 0, 0, 0, 0, 0, 0, 0, 5, 0, 0, 0, 0⟩ : SimRecord),
          ⟨2, 0, 0, 0, 0, 0, 0, 0, 0, 3, 0, 0, 0, 0⟩] :
          List SimRecord).length →
        (([(⟨1, 0, 0, 0, 0, 0, 0, 0, 0, 5, 0, 0, 0, 0⟩ : SimRecord),
           ⟨2, 0, 0, 0, 0, 0, 0, 0, 0, 3, 0, 0, 0, 0⟩] :
           List SimRecord).getD j default).totalSimulasi ≤ M.totalSimulasi) ∧
      (∀ j, j < ([(⟨1, 0, 0, 0, 0, 0, 0, 0, 0, 5, 0, 0, 0, 0⟩ : SimRecord),
          ⟨2, 0, 0, 0, 0, 0, 0, 0, 0, 3, 0, 0, 0, 0⟩] :
          List SimRecord).length →
        (([(⟨1, 0, 0, 0, 0, 0, 0, 0, 0, 5, 0, 0, 0, 0⟩ : SimRecord),
           ⟨2, 0, 0, 0, 0, 0, 0, 0, 0, 3, 0, 0, 0, 0⟩] :
           List SimRecord).getD j default).totalSimulasi = M.totalSimulasi →
        M.periode ≤ (([(⟨1, 0, 0, 0, 0, 0, 0, 0, 0, 5, 0, 0, 0, 0⟩ :
          SimRecord), ⟨2, 0, 0, 0, 0, 0, 0, 0, 0, 3, 0, 0, 0, 0⟩] :
           List SimRecord).getD j default).periode) ∧
      (∀ j, j < ([(⟨1, 0, 0, 0, 0, 0, 0, 0, 0, 5, 0, 0, 0, 0⟩ : SimRecord),
          ⟨2, 0, 0, 0, 0, 0, 0, 0, 0, 3, 0, 0, 0, 0⟩] :
          List SimRecord).length →
        m.totalSimulasi ≤ (([(⟨1, 0, 0, 0, 0, 0, 0, 0, 0, 5, 0, 0, 0, 0⟩ :
          SimRecord), ⟨2, 0, 0, 0, 0, 0, 0, 0, 0, 3, 0, 0, 0, 0⟩] :
           List SimRecord).getD j default).totalSimulasi) ∧
      (∀ j, j < ([(⟨1, 0, 0, 0, 0, 0, 0, 0, 0, 5, 0, 0, 0, 0⟩ : SimRecord),
          ⟨2, 0, 0, 0, 0, 0, 0, 0, 0, 3, 0, 0, 0, 0⟩] :
          List SimRecord).length →
        (([(⟨1, 0, 0, 0, 0, 0, 0, 0, 0, 5, 0, 0, 0, 0⟩ : SimRecord),
           ⟨2, 0, 0, 0, 0, 0, 0, 0, 0, 3, 0, 0, 0, 0⟩] :
           List SimRecord).getD j default).totalSimulasi = m.totalSimulasi →
        m.periode ≤ (([(⟨1, 0, 0, 0, 0, 0, 0, 0, 0, 5, 0, 0, 0, 0⟩ :
          SimRecord), ⟨2, 0, 0, 0, 0, 0, 0, 0, 0, 3, 0, 0, 0, 0⟩] :
           List SimRecord).getD j default).periode)) :=
  ⟨by decide,
   extremes_earliest_max_min
     [⟨1, 0, 0, 0, 0, 0, 0, 0, 0, 5, 0, 0, 0, 0⟩,
      ⟨2, 0, 0, 0, 0, 0, 0, 0, 0, 3, 0, 0, 0, 0⟩]
     (by decide) (by decide)⟩

/-- C9: the random-number band displayed for row i by
`display_distribution_table` is exactly the band against which
`get_simulation_value` tests a draw for row i: the sampler's result on
any table and draw equals the row-by-row lookup through the displayed
bands. -/
theorem sampler_bands_match_display_bands (df : List IntervalRow) (rn : ℤ) :
    get_simulation_value df rn =
      sample_via_display_bands (display_bands df) df rn :=
  getSimAux_eq_sample df 0 rn

/-- C10: the simulation engine never modifies the distribution tables it
is given: the tables component of the state after a run equals the tables
passed in, for every tables map, period count and randomness stream (the
sampler receives tables by value and the loop body only reads the dict). -/
theorem run_preserves_tables (d : Tables) (n : ℤ) (rng : ℕ → ℕ) (k : ℕ) :
    (run_monte_carlo_simulation_state d n rng k).tables = d := by
  rw [run_monte_carlo_simulation_state, runStateLoop_eq]

end MonteCarlo
